import Mathlib

/-!
Verification of the iondump pipeline (main.go): trailer sizing, BVM header
synthesis, envelope extraction, and text rendering, modelled as pure
functions over explicit environment inputs. External collaborators (the
remote object, the ion reader/decoder, the output sink) are modelled as
prescribed result traces; the functions below mirror the control flow of
the corresponding Go code.
-/

namespace Iondump

/-- Errors produced by reads, writes and decoders. `eof` models io.EOF;
`unexpectedTokenType` models the error extract creates for a non-blob
record; `other k` models any other distinct error value. -/
inductive Err where
  | eof : Err
  | unexpectedTokenType : Err
  | other : Nat → Err
deriving DecidableEq, Repr

/-! Part 1: sizeWithoutTrailer (main.go lines 135-162).
The Go function stats the object, reads its final 4 bytes with ReadAt into
a zero-initialized 4-byte buffer, tolerates io.EOF from ReadAt (discarding
the byte count), decodes the buffer as a little-endian uint32 offset, and
returns stat.Size - int64(offset) - 4 with a nil error. -/

/-- Result of the single ReadAt call: the bytes actually placed into the
front of the 4-byte buffer, the returned count (which the Go code
discards), and the returned error. -/
structure ReadAtResult where
  written : List Nat
  count : Nat
  err : Option Err
deriving DecidableEq, Repr

/-- The 4-byte buffer after ReadAt: the written prefix, zero-filled to
length 4 (Go's make([]byte, 4) zero-initializes it). -/
def fill4 (w : List Nat) : List Nat :=
  (w ++ List.replicate 4 0).take 4

/-- binary.LittleEndian.Uint32 over the first four entries. -/
def leUint32 (d : List Nat) : Nat :=
  d.getD 0 0 + 256 * d.getD 1 0 + 65536 * d.getD 2 0 + 16777216 * d.getD 3 0

/-- sizeWithoutTrailer, given the Stat outcome and the ReadAt outcome.
Mirrors main.go: a Stat error is returned; a ReadAt error other than
io.EOF is returned; otherwise the offset is decoded from the buffer and
stat.Size - int64(offset) - 4 is returned with no error and no sign
check. -/
def sizeWithoutTrailer (statErr : Option Err) (statSize : Int)
    (ra : ReadAtResult) : Except Err Int :=
  match statErr with
  | some e => Except.error e
  | none =>
    match ra.err with
    | some e =>
      if e ≠ Err.eof then Except.error e
      else Except.ok (statSize - (leUint32 (fill4 ra.written) : Int) - 4)
    | none => Except.ok (statSize - (leUint32 (fill4 ra.written) : Int) - 4)

/-! Part 2: extract (main.go lines 166-187).
The Go function drives ion.Reader: `for r.Next()` iterates top-level
values; inside the loop it rejects non-blob types, fetches ByteValue and
writes it to the sink. ion.Reader.Next returns false both at clean end of
stream and on a read/decode error (the error being available via r.Err(),
which the Go code never calls); the loop exit path returns nil
unconditionally. The reader is modelled as its trace: the list of
successfully-positioned top-level values, followed by the error pending
when Next finally returns false (none = clean end of stream). -/

/-- ion types as reported by ion.Reader.Type. -/
inductive IonType where
  | null | bool | int | string | blob | clob | list | sexp | struct
deriving DecidableEq, Repr

/-- One top-level value the reader positions on: its type, the bytes
ByteValue would return, and the error ByteValue would return. -/
structure IonValue where
  type : IonType
  bytes : List Nat
  byteErr : Option Err
deriving DecidableEq, Repr

/-- An output sink (io.Writer): each write may fail and updates sink
state. -/
structure Sink (ω : Type) where
  write : ω → List Nat → Option Err × ω

/-- The in-memory collecting sink: never fails, appends every write. -/
def listSink : Sink (List Nat) where
  write w bs := (none, w ++ bs)

/-- extract over a reader trace. `stopErr` is the error ion.Reader.Err()
would report once Next returns false; the Go code never consults it, so
the model ignores it on the loop-exit path, faithfully returning no
error. -/
def extract {ω : Type} (K : Sink ω) (w : ω) (vals : List IonValue)
    (stopErr : Option Err) : ω × Option Err :=
  match vals with
  | [] => (w, none)
  | v :: rest =>
    if v.type = IonType.blob then
      match v.byteErr with
      | some e => (w, some e)
      | none =>
        match K.write w v.bytes with
        | (some e, w2) => (w2, some e)
        | (none, w2) => extract K w2 rest stopErr
    else (w, some Err.unexpectedTokenType)

/-- Concatenation of a list of byte lists, in order, with no separators. -/
def catBytes : List (List Nat) → List Nat
  | [] => []
  | b :: bs => b ++ catBytes bs

/-- A reader trace of n well-formed opaque-blob records. -/
def blobVals (bs : List (List Nat)) : List IonValue :=
  bs.map (fun b => { type := IonType.blob, bytes := b, byteErr := none })

/-! Part 3: dump (main.go lines 206-225).
The Go function loops Decode; ion.ErrNoInput breaks the loop, any other
decode error is returned at once; each decoded value is passed to
enc.Encode; after the loop enc.Finish() is called once and its error (nil
on success) is returned. The decoder is modelled as a prescribed list of
step outcomes, and the encoder as an event trace plus per-call error
prescriptions. -/

/-- One outcome of dec.Decode(): a value (modelled opaquely by a Nat), the
distinguished ion.ErrNoInput condition, or another error. -/
inductive DecodeStep where
  | value : Nat → DecodeStep
  | noInput : DecodeStep
  | fail : Err → DecodeStep
deriving DecidableEq, Repr

/-- Calls dump makes on the text encoder, in order. -/
inductive EncEvent where
  | enc : Nat → EncEvent
  | fin : EncEvent
deriving DecidableEq, Repr

/-- dump over a decoder trace. `encErr v` is the error enc.Encode(v) would
return, `finErr` the error enc.Finish() would return. The result is the
ordered trace of encoder calls together with dump's returned error. An
exhausted step list is read as the decoder thereafter reporting
ion.ErrNoInput. -/
def dump (encErr : Nat → Option Err) (finErr : Option Err) :
    List DecodeStep → List EncEvent × Option Err
  | [] => ([EncEvent.fin], finErr)
  | DecodeStep.noInput :: _ => ([EncEvent.fin], finErr)
  | DecodeStep.fail e :: _ => ([], some e)
  | DecodeStep.value v :: rest =>
    match encErr v with
    | some e => ([EncEvent.enc v], some e)
    | none =>
      let p := dump encErr finErr rest
      (EncEvent.enc v :: p.1, p.2)

/-! Part 4: bvmReader (main.go lines 229-263).
The wrapper prepends the 4-byte ion BVM marker to the wrapped stream. Its
state is the count r.n of marker bytes already emitted. A Read with r.n <
4 first stages min(len(p), 4-r.n) marker bytes and advances r.n; if the
buffer is not yet full it performs exactly one read from the wrapped
source and, on a source error, returns (0, err), discarding both the
staged marker bytes and any bytes returned alongside the error. With r.n
>= 4 the Read is a verbatim pass-through. -/

/-- The ion binary version marker E0 01 00 EA. -/
def bvm : List Nat := [0xE0, 0x01, 0x00, 0xEA]

/-- A wrapped byte source (io.Reader): read takes the source state and the
buffer length, returns the bytes produced, the error, and the new state.
Go permits bytes alongside a non-nil error. -/
structure Src (σ : Type) where
  read : σ → Nat → (List Nat × Option Err) × σ

/-- bvmReader state: marker bytes emitted so far, plus source state. -/
structure BvmState (σ : Type) where
  n : Nat
  src : σ
deriving DecidableEq, Repr

/-- bvmReader.Read for a caller buffer of length plen. -/
def bvmRead {σ : Type} (S : Src σ) (st : BvmState σ) (plen : Nat) :
    (List Nat × Option Err) × BvmState σ :=
  if st.n < 4 then
    let k := min plen (4 - st.n)
    let staged := (bvm.drop st.n).take k
    if k = plen then ((staged, none), { n := st.n + k, src := st.src })
    else
      match S.read st.src (plen - k) with
      | ((_, some e), s2) => (([], some e), { n := st.n + k, src := s2 })
      | ((bs, none), s2) => ((staged ++ bs, none), { n := st.n + k, src := s2 })
  else
    match S.read st.src plen with
    | (res, s2) => (res, { n := st.n, src := s2 })

/-- The deterministic source the pipeline actually wraps (io.LimitedReader
over the object bytes): serves min(len(p), remaining) bytes, and reports
io.EOF once exhausted, as LimitedReader does for N <= 0. -/
def listSrc : Src (List Nat) where
  read s k := if s.isEmpty then (([], some Err.eof), []) else ((s.take k, none), s.drop k)

/-- A caller that issues one Read per entry of ks (the buffer sizes) and
stops early on any returned error. Yields the concatenation of all byte
slices ever returned and whether the run terminated by an error/EOF (true)
or merely ran out of prescribed sizes (false). -/
def drive (ks : List Nat) (st : BvmState (List Nat)) : List Nat × Bool :=
  match ks with
  | [] => ([], false)
  | k :: ks2 =>
    match bvmRead listSrc st k with
    | ((bs, some _), _) => (bs, true)
    | ((bs, none), st2) =>
      let p := drive ks2 st2
      (bs ++ p.1, p.2)

/-! Theorems. -/

/-- ReadAt fills the whole 4-byte buffer when it delivers 4 bytes. -/
lemma fill4_eq_of_length (w : List Nat) (h : w.length = 4) : fill4 w = w := by
  unfold fill4
  rw [show (4 : Nat) = w.length from h.symm, List.take_left]

/-- Claim C4: for every (totalSize, offset) pair with totalSize at least 4
and totalSize - offset - 4 nonnegative, where offset is the little-endian
unsigned 32-bit integer stored in the object's final 4 bytes and all reads
succeed, sizeWithoutTrailer returns exactly totalSize - offset - 4. -/
theorem sizeWithoutTrailer_correct (statSize : Int) (data : List Nat) (count : Nat)
    (hlen : data.length = 4) (hsz : 4 ≤ statSize)
    (hpos : 0 ≤ statSize - (leUint32 data : Int) - 4) :
    sizeWithoutTrailer none statSize ⟨data, count, none⟩ =
      Except.ok (statSize - (leUint32 data : Int) - 4) := by
  simp [sizeWithoutTrailer, fill4_eq_of_length data hlen]

/-- Witness for C4 at totalSize 12, trailer bytes 04 00 00 00. -/
theorem sizeWithoutTrailer_correct_witness :
    ([4, 0, 0, 0] : List Nat).length = 4 ∧ (4 : Int) ≤ 12 ∧
    0 ≤ (12 : Int) - (leUint32 [4, 0, 0, 0] : Int) - 4 ∧
    sizeWithoutTrailer none 12 ⟨[4, 0, 0, 0], 4, none⟩ =
      Except.ok ((12 : Int) - (leUint32 [4, 0, 0, 0] : Int) - 4) :=
  ⟨by decide, by decide, by decide,
    sizeWithoutTrailer_correct 12 [4, 0, 0, 0] 4 (by decide) (by decide) (by decide)⟩

/-- Counterexample to claim C1: at totalSize 4 with trailer bytes
05 00 00 00 (offset 5, so totalSize - offset - 4 = -5 < 0), the function
does not fail: it returns the negative length -5 with no error. -/
theorem sizeWithoutTrailer_negative_cex :
    sizeWithoutTrailer none 4 ⟨[5, 0, 0, 0], 4, none⟩ = Except.ok (-5) ∧
    (-5 : Int) < 0 := by
  constructor
  · rfl
  · decide

/-- Claim C1 as amended: for every object whose final 4 bytes decode to an
offset with totalSize - offset - 4 negative, sizeWithoutTrailer does not
fail: it returns the negative value totalSize - offset - 4 with no error
(neither failing nor clamping to zero). -/
theorem sizeWithoutTrailer_negative_ok (statSize : Int) (data : List Nat) (count : Nat)
    (hlen : data.length = 4)
    (hneg : statSize - (leUint32 data : Int) - 4 < 0) :
    sizeWithoutTrailer none statSize ⟨data, count, none⟩ =
      Except.ok (statSize - (leUint32 data : Int) - 4) := by
  simp [sizeWithoutTrailer, fill4_eq_of_length data hlen]

/-- Witness for the amended C1 at totalSize 4, trailer bytes 05 00 00 00. -/
theorem sizeWithoutTrailer_negative_ok_witness :
    ([5, 0, 0, 0] : List Nat).length = 4 ∧
    (4 : Int) - (leUint32 [5, 0, 0, 0] : Int) - 4 < 0 ∧
    sizeWithoutTrailer none 4 ⟨[5, 0, 0, 0], 4, none⟩ =
      Except.ok ((4 : Int) - (leUint32 [5, 0, 0, 0] : Int) - 4) :=
  ⟨by decide, by decide,
    sizeWithoutTrailer_negative_ok 4 [5, 0, 0, 0] 4 (by decide) (by decide)⟩

/-- Claim C10: when ReadAt reports io.EOF, sizeWithoutTrailer treats it as
success whatever the byte count was (count is universally quantified and
unused), decoding the offset from the possibly partially filled,
zero-initialized 4-byte buffer instead of failing. -/
theorem sizeWithoutTrailer_eof_success (statSize : Int) (w : List Nat) (count : Nat) :
    sizeWithoutTrailer none statSize ⟨w, count, some Err.eof⟩ =
      Except.ok (statSize - (leUint32 (fill4 w) : Int) - 4) := by
  simp [sizeWithoutTrailer]

/-- Emitting well-formed blob records through the collecting sink appends
their concatenated contents and never consults the pending reader error. -/
lemma extract_listSink_blobs (bs : List (List Nat)) (w : List Nat) (stopErr : Option Err) :
    extract listSink w (blobVals bs) stopErr = (w ++ catBytes bs, none) := by
  induction bs generalizing w with
  | nil => simp [extract, blobVals, catBytes]
  | cons b bs ih =>
    have step : extract listSink w (blobVals (b :: bs)) stopErr
        = extract listSink (w ++ b) (blobVals bs) stopErr := rfl
    rw [step, ih (w ++ b)]
    simp [catBytes]

/-- A run of well-formed blob records is consumed before the remaining
trace, appending its concatenated contents to the sink. -/
lemma extract_listSink_append (pre : List (List Nat)) (rest : List IonValue)
    (w : List Nat) (stopErr : Option Err) :
    extract listSink w (blobVals pre ++ rest) stopErr =
      extract listSink (w ++ catBytes pre) rest stopErr := by
  induction pre generalizing w with
  | nil => simp [blobVals, catBytes]
  | cons b bs ih =>
    have step : extract listSink w (blobVals (b :: bs) ++ rest) stopErr
        = extract listSink (w ++ b) (blobVals bs ++ rest) stopErr := rfl
    rw [step, ih (w ++ b)]
    simp [catBytes]

/-- Claim C3, the code as it is: when the reader's iteration stops with a
pending read or decode error (ion.Reader.Next returned false with a
non-nil r.Err()), extract still returns no error: the loop exit path
returns nil without consulting r.Err(), silently swallowing the error,
whatever blob records were decoded before the failure. -/
theorem extract_swallows_reader_error (e : Err) (bs : List (List Nat)) :
    extract listSink [] (blobVals bs) (some e) = (catBytes bs, none) := by
  simpa using extract_listSink_blobs bs [] (some e)

/-- Claim C5: for an envelope of N opaque-blob records with contents
b1..bN and a clean end of stream, extract writes exactly the concatenation
of the contents, in record order, with no separators, and returns nil. -/
theorem extract_concats_blobs (bs : List (List Nat)) :
    extract listSink [] (blobVals bs) none = (catBytes bs, none) := by
  simpa using extract_listSink_blobs bs [] none

/-- Claim C6: on the first record whose kind is not opaque blob, extract
returns an error immediately: earlier blob contents were already written,
nothing is written for the offending record or any later record. -/
theorem extract_nonblob_aborts (pre : List (List Nat)) (bad : IonValue)
    (post : List IonValue) (stopErr : Option Err)
    (hbad : bad.type ≠ IonType.blob) :
    extract listSink [] (blobVals pre ++ bad :: post) stopErr =
      (catBytes pre, some Err.unexpectedTokenType) := by
  rw [extract_listSink_append]
  simp [extract, hbad]

/-- Witness for C6: one blob record, then a string record. -/
theorem extract_nonblob_aborts_witness :
    (IonValue.mk IonType.string [2] none).type ≠ IonType.blob ∧
    extract listSink [] (blobVals [[1]] ++ IonValue.mk IonType.string [2] none :: []) none =
      (catBytes [[1]], some Err.unexpectedTokenType) :=
  ⟨by decide, extract_nonblob_aborts [[1]] (IonValue.mk IonType.string [2] none) [] none (by decide)⟩

/-- Successfully encoded values pass through dump ahead of the rest of the
decoder trace. -/
lemma dump_values_pass (vs : List Nat) (tail : List DecodeStep) (finErr : Option Err) :
    dump (fun _ => none) finErr (vs.map DecodeStep.value ++ tail) =
      (vs.map EncEvent.enc ++ (dump (fun _ => none) finErr tail).1,
        (dump (fun _ => none) finErr tail).2) := by
  induction vs with
  | nil => simp
  | cons v vs ih => simp [dump, ih]

/-- Claim C8: when the decoder reports the distinguished no-more-input
condition after the values, dump returns nil and its encoder-call trace is
exactly the encoded values followed by one final Finish; when the decoder
instead fails with any other error, dump returns that error and Finish is
never called. -/
theorem dump_clean_end_and_error (vs : List Nat) (e : Err) (rest : List DecodeStep) :
    dump (fun _ => none) none (vs.map DecodeStep.value ++ [DecodeStep.noInput]) =
      (vs.map EncEvent.enc ++ [EncEvent.fin], none) ∧
    dump (fun _ => none) none (vs.map DecodeStep.value ++ DecodeStep.fail e :: rest) =
      (vs.map EncEvent.enc, some e) := by
  constructor
  · rw [dump_values_pass]
    simp [dump]
  · rw [dump_values_pass]
    simp [dump]

/-- Unfolding one step of the driving caller. -/
lemma drive_cons (k : Nat) (ks : List Nat) (st : BvmState (List Nat)) :
    drive (k :: ks) st =
      match bvmRead listSrc st k with
      | ((bs, some _), _) => (bs, true)
      | ((bs, none), st2) => (bs ++ (drive ks st2).1, (drive ks st2).2) := rfl

/-- A Read whose buffer fits inside the remaining marker delivers only
marker bytes and advances the count. -/
lemma bvmRead_marker_only (n : Nat) (s : List Nat) (k : Nat)
    (hlt : n < 4) (hb : k ≤ 4 - n) :
    bvmRead listSrc ⟨n, s⟩ k = (((bvm.drop n).take k, none), ⟨n + k, s⟩) := by
  have hmin : min k (4 - n) = k := by omega
  simp [bvmRead, hlt, hmin]

/-- A boundary-spanning Read over a non-exhausted deterministic source
delivers the remaining marker bytes followed by source bytes. -/
lemma bvmRead_boundary_list (n : Nat) (s : List Nat) (k : Nat)
    (hlt : n < 4) (hb : 4 - n < k) (hs : s ≠ []) :
    bvmRead listSrc ⟨n, s⟩ k =
      ((bvm.drop n ++ s.take (k - (4 - n)), none), ⟨4, s.drop (k - (4 - n))⟩) := by
  have hmin : min k (4 - n) = 4 - n := by omega
  have hkne : ¬(4 - n = k) := by omega
  have hstaged : (bvm.drop n).take (4 - n) = bvm.drop n := by
    apply List.take_of_length_le
    simp [bvm]
  have h4 : n + (4 - n) = 4 := by omega
  simp [bvmRead, hlt, hmin, hkne, listSrc, hs, hstaged, h4]

/-- A pass-through Read over the non-exhausted deterministic source. -/
lemma bvmRead_pass_list (s : List Nat) (k : Nat) (hs : s ≠ []) :
    bvmRead listSrc ⟨4, s⟩ k = ((s.take k, none), ⟨4, s.drop k⟩) := by
  simp [bvmRead, listSrc, hs]

/-- A pass-through Read over the exhausted deterministic source reports
io.EOF and no bytes. -/
lemma bvmRead_pass_eof (k : Nat) :
    bvmRead listSrc ⟨4, ([] : List Nat)⟩ k = (([], some Err.eof), ⟨4, []⟩) := by
  simp [bvmRead, listSrc]

/-- Invariant of a driven run: from a reachable state (count at most 4,
and source untouched hence nonempty while the marker is unfinished), a run
that terminates at end of stream has delivered exactly the remaining
marker bytes followed by the remaining source bytes. -/
lemma drive_invariant (ks : List Nat) (n : Nat) (s : List Nat)
    (hn : n ≤ 4) (hs : s = [] → n = 4)
    (hfin : (drive ks ⟨n, s⟩).2 = true) :
    (drive ks ⟨n, s⟩).1 = bvm.drop n ++ s := by
  induction ks generalizing n s with
  | nil => simp [drive] at hfin
  | cons k ks ih =>
    by_cases hlt : n < 4
    · have hsne : s ≠ [] := fun h => absurd (hs h) (by omega)
      by_cases hb : k ≤ 4 - n
      · rw [drive_cons, bvmRead_marker_only n s k hlt hb] at hfin ⊢
        simp only at hfin ⊢
        rw [ih (n + k) s (by omega) (fun h => absurd h hsne) hfin]
        have hdd : bvm.drop (n + k) = (bvm.drop n).drop k := (List.drop_drop k n bvm).symm
        rw [hdd, ← List.append_assoc, List.take_append_drop]
      · rw [drive_cons, bvmRead_boundary_list n s k hlt (by omega) hsne] at hfin ⊢
        simp only at hfin ⊢
        rw [ih 4 (s.drop (k - (4 - n))) (by omega) (fun _ => rfl) hfin]
        have hd4 : bvm.drop 4 = [] := rfl
        rw [hd4, List.nil_append, List.append_assoc, List.take_append_drop]
    · have h4 : n = 4 := by omega
      subst h4
      by_cases hse : s = []
      · subst hse
        rw [drive_cons, bvmRead_pass_eof k]
        exact rfl
      · rw [drive_cons, bvmRead_pass_list s k hse] at hfin ⊢
        simp only at hfin ⊢
        rw [ih 4 (s.drop k) (by omega) (fun _ => rfl) hfin]
        have hd4 : bvm.drop 4 = [] := rfl
        rw [hd4, List.nil_append, List.nil_append, List.take_append_drop]

/-- Counterexample to claim C2 as stated: with empty wrapped source
content and the single read-buffer size 5, the boundary-spanning read hits
the source's io.EOF, the Read returns (0, EOF), and the concatenation of
all bytes ever returned is empty rather than the 4-byte marker. -/
theorem bvmReader_chunking_cex :
    (drive [5] ⟨0, ([] : List Nat)⟩).2 = true ∧
    (drive [5] ⟨0, ([] : List Nat)⟩).1 ≠ bvm ++ ([] : List Nat) := by
  decide

/-- Claim C2 as amended: for every nonempty wrapped source content and
every sequence of read-buffer sizes under which the caller reaches end of
stream, the concatenation of all byte slices ever returned equals the
4-byte marker E0 01 00 EA followed by the source content, regardless of
chunking. -/
theorem bvmReader_chunking_invariance (s : List Nat) (ks : List Nat)
    (hs : s ≠ []) (hfin : (drive ks ⟨0, s⟩).2 = true) :
    (drive ks ⟨0, s⟩).1 = bvm ++ s := by
  have h := drive_invariant ks 0 s (by omega) (fun h => absurd h hs) hfin
  simpa using h

/-- Witness for the amended C2: content [7], buffer sizes 3, 9, 9. -/
theorem bvmReader_chunking_invariance_witness :
    ([7] : List Nat) ≠ [] ∧ (drive [3, 9, 9] ⟨0, [7]⟩).2 = true ∧
    (drive [3, 9, 9] ⟨0, [7]⟩).1 = bvm ++ [7] :=
  ⟨by decide, by decide,
    bvmReader_chunking_invariance [7] [3, 9, 9] (by decide) (by decide)⟩

/-- Claim C7: in a boundary-spanning Read (buffer longer than the
remaining marker bytes), a source error makes Read return (0, err):
neither the staged marker bytes nor the bytes the source returned
alongside the error reach the caller, and the count is left at 4 so the
lost marker bytes are never re-delivered. -/
theorem bvmRead_boundary_error {σ : Type} (S : Src σ) (n : Nat) (s : σ)
    (plen : Nat) (bs : List Nat) (e : Err) (s2 : σ)
    (hn : n < 4) (hp : 4 - n < plen)
    (hr : S.read s (plen - (4 - n)) = ((bs, some e), s2)) :
    bvmRead S ⟨n, s⟩ plen = (([], some e), ⟨4, s2⟩) := by
  have hmin : min plen (4 - n) = 4 - n := by omega
  have hkne : ¬(4 - n = plen) := by omega
  have h4 : n + (4 - n) = 4 := by omega
  simp [bvmRead, hn, hmin, hkne, hr, h4]

/-- A source that fails while also returning a byte. -/
def errSrc : Src Unit where
  read _ _ := (([9], some (Err.other 7)), ())

/-- Witness for C7: fresh reader, buffer size 5, failing source. -/
theorem bvmRead_boundary_error_witness :
    (0 : Nat) < 4 ∧ 4 - 0 < 5 ∧
    errSrc.read () (5 - (4 - 0)) = (([9], some (Err.other 7)), ()) ∧
    bvmRead errSrc ⟨0, ()⟩ 5 = (([], some (Err.other 7)), ⟨4, ()⟩) :=
  ⟨by decide, by decide, rfl,
    bvmRead_boundary_error errSrc 0 () 5 [9] (Err.other 7) () (by decide) (by decide) rfl⟩

/-- Claim C9: the emitted-marker count stays within 0..4 and never
decreases across a Read, and once it has reached 4 every Read is a
verbatim pass-through of the wrapped source: the returned bytes and error
are exactly the source's, and the count stays 4. -/
theorem bvmRead_emitted_invariant {σ : Type} (S : Src σ) (st : BvmState σ)
    (plen : Nat) (h : st.n ≤ 4) :
    st.n ≤ (bvmRead S st plen).2.n ∧ (bvmRead S st plen).2.n ≤ 4 ∧
    (st.n = 4 → bvmRead S st plen =
      ((S.read st.src plen).1, ⟨st.n, (S.read st.src plen).2⟩)) := by
  obtain ⟨n, s⟩ := st
  simp only at h ⊢
  by_cases hlt : n < 4
  · refine ⟨?_, ?_, ?_⟩
    · simp only [bvmRead, if_pos hlt]
      by_cases hb : min plen (4 - n) = plen
      · simp [hb]
      · rcases hres : S.read s (plen - min plen (4 - n)) with ⟨⟨bs, oe⟩, s2⟩
        cases oe <;> simp [hb, hres]
    · simp only [bvmRead, if_pos hlt]
      by_cases hb : min plen (4 - n) = plen
      · simp [hb]
        omega
      · rcases hres : S.read s (plen - min plen (4 - n)) with ⟨⟨bs, oe⟩, s2⟩
        cases oe <;> simp [hb, hres] <;> omega
    · intro h4
      exact absurd h4 (by omega)
  · have h4 : n = 4 := by omega
    subst h4
    rcases hres : S.read s plen with ⟨res, s2⟩
    refine ⟨?_, ?_, ?_⟩ <;> simp [bvmRead, hres]

/-- Witness for C9 at count 2, source [7], buffer size 9. -/
theorem bvmRead_emitted_invariant_witness :
    (2 : Nat) ≤ 4 ∧
    (2 ≤ (bvmRead listSrc ⟨2, [7]⟩ 9).2.n ∧ (bvmRead listSrc ⟨2, [7]⟩ 9).2.n ≤ 4 ∧
      ((2 : Nat) = 4 → bvmRead listSrc ⟨2, [7]⟩ 9 =
        ((listSrc.read [7] 9).1, ⟨2, (listSrc.read [7] 9).2⟩))) :=
  ⟨by decide, bvmRead_emitted_invariant listSrc ⟨2, [7]⟩ 9 (by decide)⟩

end Iondump
